import Mathlib

/-!
Verification of the ordering, preset-scoping and usage-aggregation logic of the
Esri market-area analysis backend (`backend/api/models.py`, `serializers.py`,
`views.py`), via a shallow embedding: Django rows become Lean structures,
querysets become list filters, and each view/serializer method becomes a Lean
function mirroring its control flow.  Identifiers are stored as `Nat` (the
UUID values are opaque; only equality matters), timestamps as `Int` seconds,
and `Decimal` costs as `ℚ` (Python `Decimal` arithmetic on the ledger is
exact, so `ℚ` represents it faithfully).
-/

namespace EsriMA

/-! ## Presets and the scope resolver

`StylePreset` and `VariablePreset` (models.py) both carry a nullable
`project` foreign key and an `is_global` flag, and their viewsets
(`StylePresetViewSet` / `VariablePresetViewSet` in views.py) have identical
`get_queryset` and `make_global` bodies; one embedding covers both kinds. -/

structure Preset where
  id : Nat
  project : Option Nat
  isGlobal : Bool
deriving DecidableEq, Repr

/-- `StylePresetViewSet.get_queryset` / `VariablePresetViewSet.get_queryset`
(views.py 593-601 and 628-636): with a `project` query parameter, filter
`Q(project_id=project_id) | Q(is_global=True)`; without, filter
`is_global=True`.  The absent / empty (falsy) parameter is `none`. -/
def resolvePresets (ps : List Preset) (projectId : Option Nat) : List Preset :=
  match projectId with
  | some pid => ps.filter (fun x => x.project == some pid || x.isGlobal)
  | none => ps.filter (fun x => x.isGlobal)

/-- `StylePresetViewSet.make_global` / `VariablePresetViewSet.make_global`
(views.py 606-613 and 641-648): if the preset is not yet global, set
`is_global = True` and `project = None`, then save; otherwise do nothing. -/
def makeGlobal (p : Preset) : Preset :=
  if p.isGlobal then p else { p with isGlobal := true, project := none }

/-! ## Variable preset serializer (C10) -/

structure VariablePresetRow where
  name : String
  vars : List String
  isGlobal : Bool
  project : Option Nat
deriving DecidableEq, Repr

/-- The writable payload of `VariablePresetSerializer` (serializers.py
217-226): `name`, `variables`, `is_global`.  There is no `project` field. -/
structure VariablePresetPayload where
  name : String
  vars : List String
  isGlobal : Bool
deriving DecidableEq, Repr

/-- `VariablePresetSerializer.validate_variables` followed by
`VariablePresetSerializer.validate` (serializers.py 231-240): reject an empty
variables list, then unconditionally set `data['is_global'] = True`. -/
def vpRunValidation (d : VariablePresetPayload) : Except String VariablePresetPayload :=
  if d.vars.isEmpty then
    .error "Variables list cannot be empty"
  else
    .ok { d with isGlobal := true }

/-- Creation through `VariablePresetSerializer`: run validation, then build a
`VariablePreset` row from the validated fields; the model's `project` column
keeps its null default because the serializer exposes no `project` field. -/
def createVariablePreset (d : VariablePresetPayload) : Except String VariablePresetRow :=
  match vpRunValidation d with
  | .error e => .error e
  | .ok v => .ok { name := v.name, vars := v.vars, isGlobal := v.isGlobal,
                   project := none }

/-! ## Theorems: preset scoping (C6), promotion (C7), variable presets (C10) -/

/-- Helper: membership in the global-only queryset. -/
theorem mem_resolvePresets_none {ps : List Preset} {x : Preset} :
    x ∈ resolvePresets ps none ↔ x ∈ ps ∧ x.isGlobal = true := by
  simp [resolvePresets, List.mem_filter]

/-- C6: for every project id `P`, the project-scoped queryset contains the
global-only queryset, and — in states satisfying the global-implies-no-project
invariant the serializers maintain — the part of the project-scoped result
that is not in the global-only result is exactly the presets whose `project`
equals `P`. -/
theorem resolve_presets_superset_and_difference (ps : List Preset) (P : Nat)
    (hinv : ∀ x ∈ ps, x.isGlobal = true → x.project = none) :
    (∀ x ∈ resolvePresets ps none, x ∈ resolvePresets ps (some P)) ∧
    (resolvePresets ps (some P)).filter
        (fun x => !(decide (x ∈ resolvePresets ps none))) =
      ps.filter (fun x => x.project == some P) := by
  constructor
  · intro x hx
    rcases mem_resolvePresets_none.1 hx with ⟨hmem, hg⟩
    simp [resolvePresets, List.mem_filter, hmem, hg]
  · rw [resolvePresets, List.filter_filter]
    apply List.filter_congr
    intro x hx
    by_cases hg : x.isGlobal = true
    · have hproj := hinv x hx hg
      simp [hg, hproj, mem_resolvePresets_none, hx]
    · simp only [Bool.not_eq_true] at hg
      simp [hg, mem_resolvePresets_none]

/-- Witness for C6 at a concrete state: one preset scoped to project 5, one
global preset (with no project), resolved for project 5. -/
theorem resolve_presets_superset_and_difference_witness :
    (∀ x ∈ resolvePresets [⟨1, some 5, false⟩, ⟨2, none, true⟩] none,
        x ∈ resolvePresets [⟨1, some 5, false⟩, ⟨2, none, true⟩] (some 5)) ∧
    (resolvePresets [⟨1, some 5, false⟩, ⟨2, none, true⟩] (some 5)).filter
        (fun x => !(decide (x ∈ resolvePresets [⟨1, some 5, false⟩, ⟨2, none, true⟩] none))) =
      List.filter (fun x => x.project == some 5) [⟨1, some 5, false⟩, ⟨2, none, true⟩] :=
  resolve_presets_superset_and_difference [⟨1, some 5, false⟩, ⟨2, none, true⟩] 5
    (by decide)

/-- C7: `make_global` is idempotent, on a non-global preset it sets
`is_global` and clears the project reference in the one update it performs,
and on an already-global preset it is a no-op. -/
theorem make_global_idempotent (p : Preset) :
    makeGlobal (makeGlobal p) = makeGlobal p ∧
    (p.isGlobal = false →
      makeGlobal p = { p with isGlobal := true, project := none }) ∧
    (p.isGlobal = true → makeGlobal p = p) := by
  refine ⟨?_, ?_, ?_⟩
  · by_cases h : p.isGlobal = true
    · simp [makeGlobal, h]
    · simp [makeGlobal, h]
  · intro h
    simp [makeGlobal, h]
  · intro h
    simp [makeGlobal, h]

/-- C10: every variable preset the API serializer successfully creates is
global and has no project reference, whatever the request payload said. -/
theorem variable_preset_always_global (d : VariablePresetPayload)
    (r : VariablePresetRow) (h : createVariablePreset d = .ok r) :
    r.isGlobal = true ∧ r.project = none := by
  unfold createVariablePreset vpRunValidation at h
  by_cases he : d.vars.isEmpty
  · simp [he] at h
  · simp [he] at h
    subst h
    exact ⟨rfl, rfl⟩

/-- Witness for C10: a payload that explicitly asks for `is_global = false`
still comes out global and unscoped. -/
theorem variable_preset_always_global_witness :
    createVariablePreset ⟨"income", ["MEDHINC_CY"], false⟩ =
      .ok ⟨"income", ["MEDHINC_CY"], true, none⟩ ∧
    (⟨"income", ["MEDHINC_CY"], true, none⟩ : VariablePresetRow).isGlobal = true ∧
    (⟨"income", ["MEDHINC_CY"], true, none⟩ : VariablePresetRow).project = none :=
  ⟨rfl,
   variable_preset_always_global ⟨"income", ["MEDHINC_CY"], false⟩ _ rfl⟩

/-! ## Enrichment usage ledger (C4, C8)

`EnrichmentUsage` (models.py 40-49) is an append-only ledger row.  Costs are
Python `Decimal`s; we model the `Decimal` constructor on the plain signed
fixed-point literals the API receives (optional sign, digits, at most one
dot; exponent/special forms are out of scope) and its exact arithmetic in
`ℚ`. -/

structure UsageRow where
  user : Nat
  project : Nat
  cost : ℚ
  timestamp : Int
deriving DecidableEq, Repr

/-- Digit run of a fixed-point literal: accumulates the mantissa, the number
of digits seen after the dot, and the total digit count; fails on a second
dot, a non-digit, or an empty digit run (as `Decimal(...)` raises). -/
def parseDigits : List Char → Nat → Bool → Nat → Nat → Option (Nat × Nat)
  | [], acc, _, frac, ndig => if ndig = 0 then none else some (acc, frac)
  | c :: rest, acc, seenDot, frac, ndig =>
    if c = '.' then
      if seenDot then none else parseDigits rest acc true frac ndig
    else if c.isDigit then
      parseDigits rest (acc * 10 + (c.toNat - '0'.toNat)) seenDot
        (if seenDot then frac + 1 else frac) (ndig + 1)
    else none

/-- `Decimal(s)` on a plain fixed-point literal, as an exact rational. -/
def parseDecimal (s : String) : Option ℚ :=
  match s.data with
  | '-' :: rest =>
    (parseDigits rest 0 false 0 0).map (fun mf => -((mf.1 : ℚ) / (10 : ℚ) ^ mf.2))
  | '+' :: rest =>
    (parseDigits rest 0 false 0 0).map (fun mf => (mf.1 : ℚ) / (10 : ℚ) ^ mf.2)
  | cs =>
    (parseDigits cs 0 false 0 0).map (fun mf => (mf.1 : ℚ) / (10 : ℚ) ^ mf.2)

/-- `EnrichmentUsageViewSet.record_usage` (views.py 419-453): parse
`Decimal(request.data.get('cost', '0.01'))` (an unparsable cost raises and is
caught as a 400), then fail if `user_id` or `project_id` is missing, then
`EnrichmentUsage.objects.create(...)` appends one row.  No sign or
fractional-digit check is performed anywhere on this path. -/
def recordUsage (ledger : List UsageRow) (userId projectId : Option Nat)
    (costStr : Option String) (now : Int) : Except String (List UsageRow) :=
  match parseDecimal (costStr.getD "0.01") with
  | none => .error "Failed to record enrichment usage"
  | some c =>
    match userId, projectId with
    | some u, some p => .ok (ledger ++ [⟨u, p, c, now⟩])
    | _, _ => .error "Missing required fields"

/-- The per-user window query of `usage_stats_all`:
`EnrichmentUsage.objects.filter(user=user, timestamp__gte=cutoff)`. -/
def windowRows (ledger : List UsageRow) (u : Nat) (cutoff : Int) : List UsageRow :=
  ledger.filter (fun r => r.user == u && decide (cutoff ≤ r.timestamp))

/-- `user_usage.aggregate(total=Sum('cost'))['total'] or 0` — the exact
`Decimal` sum, with the empty aggregate (`None`) collapsing to 0. -/
def sumCosts (rows : List UsageRow) : ℚ :=
  rows.foldl (fun acc r => acc + r.cost) 0

/-- `AdminUserViewSet.usage_stats_all` (views.py 280-306): for every user in
`User.objects.all()`, count and sum that user's ledger rows with
`timestamp >= now - timedelta(days=30)`; returns the mapping user id ↦
(total_enrichments, total_cost). -/
def usageStatsAll (users : List Nat) (ledger : List UsageRow) (now : Int) :
    List (Nat × Nat × ℚ) :=
  users.map (fun u =>
    (u, (windowRows ledger u (now - 30 * 86400)).length,
        sumCosts (windowRows ledger u (now - 30 * 86400))))

/-- C8: `usage_stats_all` enumerates every known user: the keys of the
result are exactly the user list, each user maps to the count and exact cost
sum of their rows inside the 30-day window, and a user with no matching rows
still appears with count 0 and total 0. -/
theorem usage_stats_total_enumeration (users : List Nat) (ledger : List UsageRow)
    (now : Int) (u : Nat) (hu : u ∈ users) :
    (usageStatsAll users ledger now).map Prod.fst = users ∧
    (u, (windowRows ledger u (now - 30 * 86400)).length,
        sumCosts (windowRows ledger u (now - 30 * 86400))) ∈
      usageStatsAll users ledger now ∧
    (windowRows ledger u (now - 30 * 86400) = [] →
      (u, 0, (0 : ℚ)) ∈ usageStatsAll users ledger now) := by
  refine ⟨?_, ?_, ?_⟩
  · rw [usageStatsAll, List.map_map]
    have hf : (Prod.fst ∘ fun u : Nat =>
        (u, (windowRows ledger u (now - 30 * 86400)).length,
            sumCosts (windowRows ledger u (now - 30 * 86400)))) = id :=
      funext fun _ => rfl
    rw [hf, List.map_id]
  · exact List.mem_map.2 ⟨u, hu, rfl⟩
  · intro h
    have hmem : (u, (windowRows ledger u (now - 30 * 86400)).length,
        sumCosts (windowRows ledger u (now - 30 * 86400))) ∈
        usageStatsAll users ledger now := List.mem_map.2 ⟨u, hu, rfl⟩
    rw [h] at hmem
    simpa [sumCosts] using hmem

/-- Witness for C8: two users, one ledger row inside the window for user 1,
nothing for user 2 (who still appears with zeros). -/
theorem usage_stats_total_enumeration_witness :
    (usageStatsAll [1, 2] [⟨1, 9, 3, 100⟩] 100).map Prod.fst = [1, 2] ∧
    (1, (windowRows [⟨1, 9, 3, 100⟩] 1 (100 - 30 * 86400)).length,
        sumCosts (windowRows [⟨1, 9, 3, 100⟩] 1 (100 - 30 * 86400))) ∈
      usageStatsAll [1, 2] [⟨1, 9, 3, 100⟩] 100 ∧
    (windowRows [⟨1, 9, 3, 100⟩] 1 (100 - 30 * 86400) = [] →
      (1, 0, (0 : ℚ)) ∈ usageStatsAll [1, 2] [⟨1, 9, 3, 100⟩] 100) :=
  usage_stats_total_enumeration [1, 2] [⟨1, 9, 3, 100⟩] 100 1 (by decide)

/-- C4 counterexample: `record_usage` accepts a negative cost and a cost with
three decimal places, appending a ledger row either way — the claimed
`ValidationError` rejections do not happen. -/
theorem record_usage_no_validation :
    recordUsage [] (some 1) (some 1) (some "-1.00") 0 =
      .ok [⟨1, 1, -1, 0⟩] ∧
    recordUsage [] (some 1) (some 1) (some "3.005") 0 =
      .ok [⟨1, 1, (3005 : ℚ) / 1000, 0⟩] := by
  have h1 : parseDecimal "-1.00" =
      some (-(((100 : Nat) : ℚ) / (10 : ℚ) ^ (2 : Nat))) := rfl
  have h2 : parseDecimal "3.005" =
      some (((3005 : Nat) : ℚ) / (10 : ℚ) ^ (3 : Nat)) := rfl
  have h1' : parseDecimal "-1.00" = some (-1) := by rw [h1]; norm_num
  have h2' : parseDecimal "3.005" = some ((3005 : ℚ) / 1000) := by rw [h2]; norm_num
  constructor
  · simp [recordUsage, h1']
  · simp [recordUsage, h2']

/-- C4 as amended: `record` appends exactly one ledger row whenever the cost
string parses as a decimal — with no non-negativity or fractional-digit
validation — and the appended cost is included verbatim in a subsequent
`usage_stats` total whose 30-day window covers the row. -/
theorem record_usage_amended (ledger : List UsageRow) (u p : Nat)
    (now now2 : Int) (c : String) (q : ℚ) (users : List Nat)
    (h : parseDecimal c = some q) (hu : u ∈ users)
    (hwin : now2 - 30 * 86400 ≤ now) :
    recordUsage ledger (some u) (some p) (some c) now =
      .ok (ledger ++ [⟨u, p, q, now⟩]) ∧
    sumCosts (windowRows (ledger ++ [⟨u, p, q, now⟩]) u (now2 - 30 * 86400)) =
      sumCosts (windowRows ledger u (now2 - 30 * 86400)) + q ∧
    (u, (windowRows (ledger ++ [⟨u, p, q, now⟩]) u (now2 - 30 * 86400)).length,
        sumCosts (windowRows ledger u (now2 - 30 * 86400)) + q) ∈
      usageStatsAll users (ledger ++ [⟨u, p, q, now⟩]) now2 := by
  have happ : windowRows (ledger ++ [⟨u, p, q, now⟩]) u (now2 - 30 * 86400) =
      windowRows ledger u (now2 - 30 * 86400) ++ [⟨u, p, q, now⟩] := by
    simp [windowRows, List.filter_append]
    omega
  have hsum : ∀ (l : List UsageRow) (r : UsageRow),
      sumCosts (l ++ [r]) = sumCosts l + r.cost := by
    intro l r
    simp [sumCosts, List.foldl_append]
  have hs : sumCosts (windowRows (ledger ++ [⟨u, p, q, now⟩]) u (now2 - 30 * 86400)) =
      sumCosts (windowRows ledger u (now2 - 30 * 86400)) + q := by
    rw [happ, hsum]
  refine ⟨?_, hs, ?_⟩
  · simp [recordUsage, h]
  · rw [← hs]
    exact List.mem_map.2 ⟨u, hu, rfl⟩

/-- Witness for the amended C4 at cost `3.00`, matching the spec's example. -/
theorem record_usage_amended_witness :
    recordUsage [] (some 1) (some 2) (some "3.00") 50 =
      .ok ([] ++ [⟨1, 2, 3, 50⟩]) ∧
    sumCosts (windowRows ([] ++ [⟨1, 2, (3 : ℚ), 50⟩]) 1 (50 - 30 * 86400)) =
      sumCosts (windowRows [] 1 (50 - 30 * 86400)) + 3 ∧
    (1, (windowRows ([] ++ [⟨1, 2, (3 : ℚ), 50⟩]) 1 (50 - 30 * 86400)).length,
        sumCosts (windowRows [] 1 (50 - 30 * 86400)) + 3) ∈
      usageStatsAll [1] ([] ++ [⟨1, 2, 3, 50⟩]) 50 :=
  record_usage_amended [] 1 2 50 50 "3.00" 3 [1]
    (by
      have h1 : parseDecimal "3.00" =
          some (((300 : Nat) : ℚ) / (10 : ℚ) ^ (2 : Nat)) := rfl
      rw [h1]; norm_num)
    (by decide) (by decide)

/-! ## Market areas (C1, C2, C3)

A persisted `MarketArea` row (models.py 73-119), restricted to the fields the
ordering logic reads: pk, owning project, `order`, `last_modified`.  The
opaque JSON payloads (geometry, style_settings, …) play no role in any claim
and are omitted. -/

structure MarketArea where
  id : Nat
  project : Nat
  order : Int
  lastModified : Int
deriving DecidableEq, Repr

/-- `MarketArea.objects.filter(project_id=pid)`. -/
def projectAreas (db : List MarketArea) (pid : Nat) : List MarketArea :=
  db.filter (fun a => a.project == pid)

/-- An in-memory model instance before its first save.  Django applies field
defaults in `Model.__init__`, so a freshly constructed instance already
carries `id = some (uuid4 value)` (models.py 87: `default=uuid.uuid4`) and
`order = 0` when no explicit order was supplied (models.py 96:
`default=0`; the serializer marks `order` read-only, so API creates never
supply one). -/
structure MAInstance where
  id : Option Nat
  project : Nat
  order : Int
deriving DecidableEq, Repr

/-- Django construction of `MarketArea(...)`: the uuid pk default is applied
eagerly, so `id` is already `some freshId`. -/
def maNew (pid freshId : Nat) (explicitOrder : Option Int) : MAInstance :=
  { id := some freshId, project := pid, order := explicitOrder.getD 0 }

/-- `MarketArea.save` (models.py 104-116): when `not self.order and not
self.id`, set `order` to `(last_order or 0) + 1` where `last_order` is
`Max('order')` over the project's areas (`None` when there are none, and
Python's `or` also collapses a falsy `0` maximum to `0`); then insert the
row.  `not self.order` is Python truthiness: true exactly when `order = 0`;
`not self.id` is true exactly when `id` is `None`. -/
def maSave (db : List MarketArea) (a : MAInstance) (now : Int) : List MarketArea :=
  let lastOrder : Option Int := ((projectAreas db a.project).map (fun x => x.order)).max?
  let newOrder : Int :=
    if a.order = 0 ∧ a.id = none then
      (match lastOrder with
       | some m => if m = 0 then 0 else m
       | none => 0) + 1
    else a.order
  db ++ [{ id := a.id.getD 0, project := a.project, order := newOrder,
           lastModified := now }]

/-- Creating a market area through the API: construct, then save
(`MarketAreaList.perform_create` → `serializer.save` →
`MarketArea.objects.create`). -/
def maCreate (db : List MarketArea) (pid freshId : Nat) (explicitOrder : Option Int)
    (now : Int) : List MarketArea :=
  maSave db (maNew pid freshId explicitOrder) now

/-- C3 evidence: in a project whose only area has order 3, a create without
explicit order yields a new row with order 0, not max+1 = 4 — the max+1
branch of `MarketArea.save` is unreachable because the uuid pk default makes
`self.id` non-null at construction time.  Moreover, even when that branch
does run (an instance with `id = None`, shown on an empty project), it
assigns `(None or 0) + 1 = 1`, not the 0 the claim states for an empty
project. -/
theorem market_area_create_order_stays_zero :
    maCreate [⟨1, 7, 3, 0⟩] 7 2 none 5 = [⟨1, 7, 3, 0⟩, ⟨2, 7, 0, 5⟩] ∧
    (maNew 7 2 none).id ≠ none ∧
    maSave [] ⟨none, 7, 0⟩ 5 = [⟨0, 7, 1, 5⟩] ∧
    (0 : Int) ≠ 3 + 1 := by
  refine ⟨by decide, by decide, by decide, by decide⟩

/-! ## Map configurations (C5) -/

structure MapConfig where
  id : Nat
  project : Nat
  tabName : String
  areaType : String
  order : Int
deriving DecidableEq, Repr

/-- `MarketArea.MARKET_AREA_TYPES` (models.py 74-85), the valid `area_type`
choices checked by `MapConfigurationSerializer.validate_area_type`. -/
def marketAreaTypes : List String :=
  ["radius", "zip", "county", "place", "tract", "block", "blockgroup",
   "cbsa", "state", "usa"]

/-- Creation of a map configuration through
`MapConfigurationSerializer.create` (serializers.py 282-301) against the
store: validate `area_type`, look up the project (missing →
`ValidationError`), then `MapConfiguration.objects.create(...)` — which hits
the `unique_together = ['project', 'tab_name']` constraint (models.py 175);
the resulting `IntegrityError` is caught by the serializer's blanket
`except` and re-raised as `ValidationError(str(e))`.  Nothing is deleted. -/
def mcCreate (projects : List Nat) (db : List MapConfig) (pid : Nat)
    (tab atype : String) (ord : Int) (freshId : Nat) :
    Except String (List MapConfig) :=
  if ¬ (marketAreaTypes.contains atype = true) then
    .error "Invalid area_type"
  else if ¬ (projects.contains pid = true) then
    .error "Project does not exist"
  else if db.any (fun c => c.project == pid && c.tabName == tab) then
    .error "UNIQUE constraint failed: project, tab_name"
  else
    .ok (db ++ [{ id := freshId, project := pid, tabName := tab,
                  areaType := atype, order := ord }])

/-- The store after a create call: an error aborts the insert and leaves the
table as it was. -/
def mcCreateDb (projects : List Nat) (db : List MapConfig) (pid : Nat)
    (tab atype : String) (ord : Int) (freshId : Nat) : List MapConfig :=
  match mcCreate projects db pid tab atype ord freshId with
  | .error _ => db
  | .ok db' => db'

/-- C5 counterexample: with an existing configuration (project 1, tab
"Tab A", area type "zip"), creating the same tab name again fails with a
(wrapped) uniqueness error and leaves the old configuration in place — no
delete-and-recreate happens, and none of the new payload ("radius") is
stored. -/
theorem map_config_duplicate_tab_rejected :
    mcCreate [1] [⟨1, 1, "Tab A", "zip", 0⟩] 1 "Tab A" "radius" 0 2 =
      .error "UNIQUE constraint failed: project, tab_name" ∧
    mcCreateDb [1] [⟨1, 1, "Tab A", "zip", 0⟩] 1 "Tab A" "radius" 0 2 =
      [⟨1, 1, "Tab A", "zip", 0⟩] := by
  constructor
  · rfl
  · rfl

/-- C5 as amended: creating a configuration whose `tab_name` already exists
for the project fails with a `ValidationError` wrapping the uniqueness
violation and leaves the store unchanged; a tab name new to the project is
appended with exactly the request's fields. -/
theorem map_config_unique_tab (projects : List Nat) (db : List MapConfig)
    (pid freshId : Nat) (tab atype : String) (ord : Int)
    (hat : marketAreaTypes.contains atype = true)
    (hp : projects.contains pid = true) :
    ((∃ c ∈ db, c.project = pid ∧ c.tabName = tab) →
      (∃ e, mcCreate projects db pid tab atype ord freshId = .error e) ∧
      mcCreateDb projects db pid tab atype ord freshId = db) ∧
    ((∀ c ∈ db, ¬(c.project = pid ∧ c.tabName = tab)) →
      mcCreate projects db pid tab atype ord freshId =
        .ok (db ++ [⟨freshId, pid, tab, atype, ord⟩])) := by
  have hat' : atype ∈ marketAreaTypes := by simpa using hat
  have hp' : pid ∈ projects := by simpa using hp
  constructor
  · rintro ⟨c, hc, hcp, hct⟩
    have hdup : db.any (fun c => c.project == pid && c.tabName == tab) = true :=
      List.any_eq_true.2 ⟨c, hc, by simp [hcp, hct]⟩
    refine ⟨⟨"UNIQUE constraint failed: project, tab_name", ?_⟩, ?_⟩
    · simp [mcCreate, hat', hp', hdup]
    · simp [mcCreateDb, mcCreate, hat', hp', hdup]
  · intro hfresh
    have hdup : db.any (fun c => c.project == pid && c.tabName == tab) = false := by
      rw [Bool.eq_false_iff]
      intro hcontra
      rcases List.any_eq_true.1 hcontra with ⟨c, hc, hcond⟩
      simp only [Bool.and_eq_true, beq_iff_eq] at hcond
      exact hfresh c hc ⟨hcond.1, hcond.2⟩
    simp [mcCreate, hat', hp', hdup]

/-- Witness for C5 (amended) at the counterexample state: the duplicate
branch fires and the store is untouched. -/
theorem map_config_unique_tab_witness :
    (∃ e, mcCreate [1] [⟨1, 1, "Tab A", "zip", 0⟩] 1 "Tab A" "radius" 0 2 =
      .error e) ∧
    mcCreateDb [1] [⟨1, 1, "Tab A", "zip", 0⟩] 1 "Tab A" "radius" 0 2 =
      [⟨1, 1, "Tab A", "zip", 0⟩] :=
  (map_config_unique_tab [1] [⟨1, 1, "Tab A", "zip", 0⟩] 1 2 "Tab A" "radius" 0
    (by decide) (by decide)).1
    ⟨⟨1, 1, "Tab A", "zip", 0⟩, by decide, rfl, rfl⟩

/-! ## TcgTheme fill-color update (C9) -/

/-- A `TcgTheme` row restricted to its two fill-color representations
(models.py 54-67): the raw `fill_color` string and the nullable `color_key`
foreign key. -/
structure TcgThemeRow where
  fillColor : String
  colorKey : Option Nat
deriving DecidableEq, Repr

/-- `ColorKey.objects.get(id=k)` over the color-key table, which maps each
key's id to its `key_number`. -/
def lookupColorKey (keys : List (Nat × String)) (k : Nat) : Option String :=
  (keys.find? (fun e => e.fst == k)).map (fun e => e.snd)

/-- `TcgThemeSerializer.update` (serializers.py 31-50): pop `color_key_id`
(leaving `fill_color` in `validated_data`); if a `color_key_id` was supplied,
look it up (unknown id → `ValidationError`), link it and set `fill_color` to
the key's number; elif a (truthy) `fill_color` was supplied, set it and clear
`color_key`.  Then the generic `for attr, value in validated_data.items()`
loop re-assigns every remaining validated field — including a supplied
`fill_color`, even when the `color_key_id` branch just overwrote it. -/
def tcgUpdate (keys : List (Nat × String)) (inst : TcgThemeRow)
    (colorKeyId : Option Nat) (fillColorArg : Option String) :
    Except String TcgThemeRow :=
  match colorKeyId with
  | some k =>
    match lookupColorKey keys k with
    | none => .error "Invalid Color Key ID."
    | some keyNum =>
      let inst1 : TcgThemeRow := { inst with colorKey := some k, fillColor := keyNum }
      match fillColorArg with
      | some v => .ok { inst1 with fillColor := v }
      | none => .ok inst1
  | none =>
    match fillColorArg with
    | some v => .ok { inst with fillColor := v, colorKey := none }
    | none => .ok inst

/-- C9 counterexample: an update supplying both `color_key_id` (key 1, whose
`key_number` is "K01") and `fill_color` ("X") yields a theme whose
`color_key` is set but whose `fill_color` is the supplied literal, not the
key's number — the attr loop clobbers the branch's assignment, so the two
representations are not mutually exclusive for that update. -/
theorem tcg_update_both_fields_breaks_link :
    tcgUpdate [(1, "K01")] ⟨"old", none⟩ (some 1) (some "X") =
      .ok ⟨"X", some 1⟩ ∧ "X" ≠ "K01" := by
  exact ⟨rfl, by decide⟩

/-- C9 as amended: when at most one of the two fields is supplied the claim's
behaviour holds — `color_key_id` alone links the key and copies its
`key_number` into `fill_color`; `fill_color` alone is stored and clears the
link — but when both are supplied the result keeps the supplied
`fill_color` alongside the newly linked key. -/
theorem tcg_update_amended (keys : List (Nat × String)) (inst : TcgThemeRow)
    (k : Nat) (keyNum v : String) (h : lookupColorKey keys k = some keyNum) :
    tcgUpdate keys inst (some k) none =
      .ok { inst with colorKey := some k, fillColor := keyNum } ∧
    tcgUpdate keys inst none (some v) =
      .ok { inst with fillColor := v, colorKey := none } ∧
    tcgUpdate keys inst (some k) (some v) =
      .ok { inst with colorKey := some k, fillColor := v } := by
  refine ⟨?_, rfl, ?_⟩ <;> simp [tcgUpdate, h]

/-- Witness for the amended C9 at the counterexample's color-key table. -/
theorem tcg_update_amended_witness :
    tcgUpdate [(1, "K01")] ⟨"old", none⟩ (some 1) none =
      .ok { fillColor := "K01", colorKey := some 1 } ∧
    tcgUpdate [(1, "K01")] ⟨"old", none⟩ none (some "X") =
      .ok { fillColor := "X", colorKey := none } ∧
    tcgUpdate [(1, "K01")] ⟨"old", none⟩ (some 1) (some "X") =
      .ok { fillColor := "X", colorKey := some 1 } :=
  tcg_update_amended [(1, "K01")] ⟨"old", none⟩ 1 "K01" "X" rfl

/-! ## The reorder endpoint (C1, C2)

`MarketAreaReorder.put` (views.py 550-588).  The Python dict comprehension
`{str(id): index for index, id in enumerate(order)}` keeps, for a duplicated
id, the index of its last occurrence; `ordIndex` mirrors that.  Each updated
row is saved inside one transaction, the error returns happen before any
save, and the response re-fetches the project's areas `order_by('order')`. -/

/-- Index assigned to id `i` by the reorder mapping: the position of the last
occurrence of `i` in `order` (unused when `i` does not occur). -/
def ordIndex : List Nat → Nat → Nat
  | [], _ => 0
  | x :: xs, i =>
    if i ∈ xs then ordIndex xs i + 1
    else if x = i then 0 else ordIndex xs i + 1

/-- The queryset comparison key of `order_by('order')`. -/
def ordLe (a b : MarketArea) : Prop := a.order ≤ b.order

instance : DecidableRel ordLe :=
  fun a b => inferInstanceAs (Decidable (a.order ≤ b.order))

instance : IsTotal MarketArea ordLe :=
  ⟨fun a b => Int.le_total a.order b.order⟩

instance : IsTrans MarketArea ordLe :=
  ⟨fun _ _ _ hab hbc => le_trans hab hbc⟩

/-- The queryset comparison key of `order_by('order', '-last_modified')`
(the `Meta.ordering` used by `MarketAreaList.get_queryset`): ascending
`order`, ties broken by descending `last_modified`. -/
def listLe (a b : MarketArea) : Prop :=
  a.order < b.order ∨ (a.order = b.order ∧ b.lastModified ≤ a.lastModified)

instance : DecidableRel listLe :=
  fun a b => inferInstanceAs
    (Decidable (a.order < b.order ∨ (a.order = b.order ∧ b.lastModified ≤ a.lastModified)))

instance : IsTotal MarketArea listLe := by
  constructor
  intro a b
  rcases lt_trichotomy a.order b.order with h | h | h
  · exact Or.inl (Or.inl h)
  · rcases le_total b.lastModified a.lastModified with h' | h'
    · exact Or.inl (Or.inr ⟨h, h'⟩)
    · exact Or.inr (Or.inr ⟨h.symm, h'⟩)
  · exact Or.inr (Or.inl h)

instance : IsTrans MarketArea listLe := by
  constructor
  rintro a b c (hab | ⟨hab, hab'⟩) (hbc | ⟨hbc, hbc'⟩)
  · exact Or.inl (lt_trans hab hbc)
  · exact Or.inl (hbc ▸ hab)
  · exact Or.inl (hab ▸ hbc)
  · exact Or.inr ⟨hab.trans hbc, le_trans hbc' hab'⟩

/-- The write phase of the reorder transaction: every fetched area (project
matches and id appears in the input) gets `order := order_mapping[str(id)]`;
other rows are untouched. -/
def reorderUpdate (db : List MarketArea) (pid : Nat) (order : List Nat) :
    List MarketArea :=
  db.map (fun a =>
    if a.project == pid && order.contains a.id then
      { a with order := (ordIndex order a.id : Int) }
    else a)

/-- `MarketAreaReorder.put`: reject an empty order list; fetch
`filter(project_id=pid, id__in=order)` and reject when the fetched count
differs from the input length; otherwise assign indices and answer with the
project's areas re-fetched in ascending `order`.  The success value is the
new store together with the response list. -/
def reorder (db : List MarketArea) (pid : Nat) (order : List Nat) :
    Except String (List MarketArea × List MarketArea) :=
  if order.isEmpty then
    .error "Order list is required"
  else if (db.filter (fun a => a.project == pid && order.contains a.id)).length ≠
      order.length then
    .error "Invalid market area IDs or some IDs do not belong to this project"
  else
    .ok (reorderUpdate db pid order,
         ((reorderUpdate db pid order).filter (fun a => a.project == pid)).insertionSort
           ordLe)

/-- The store after a reorder call; the two error returns happen before any
save inside the transaction, so they leave the store as it was. -/
def reorderDb (db : List MarketArea) (pid : Nat) (order : List Nat) :
    List MarketArea :=
  match reorder db pid order with
  | .error _ => db
  | .ok (db', _) => db'

/-- `MarketAreaList.get_queryset`: the project's areas ordered by
`('order', '-last_modified')`. -/
def listFetch (db : List MarketArea) (pid : Nat) : List MarketArea :=
  (db.filter (fun a => a.project == pid)).insertionSort listLe

/-- `ordIndex` stays inside the list for present ids. -/
theorem ordIndex_lt_length {p : List Nat} {x : Nat} (hx : x ∈ p) :
    ordIndex p x < p.length := by
  induction p with
  | nil => cases hx
  | cons a xs ih =>
    by_cases hmem : x ∈ xs
    · simp only [ordIndex, if_pos hmem, List.length_cons]
      exact Nat.succ_lt_succ (ih hmem)
    · have hax : a = x := by
        rcases List.mem_cons.1 hx with h | h
        · exact h.symm
        · exact absurd h hmem
      simp [ordIndex, hmem, hax]

/-- On a duplicate-free list, the element at position `ordIndex p x` is `x`
itself. -/
theorem get_ordIndex {p : List Nat} (hnd : p.Nodup) {x : Nat} (hx : x ∈ p) :
    p.get ⟨ordIndex p x, ordIndex_lt_length hx⟩ = x := by
  induction p with
  | nil => cases hx
  | cons a xs ih =>
    rcases List.nodup_cons.1 hnd with ⟨hax, hxs⟩
    by_cases hmem : x ∈ xs
    · have hidx : ordIndex (a :: xs) x = ordIndex xs x + 1 := by
        simp [ordIndex, hmem]
      rw [List.get_eq_getElem]
      simp only [hidx, List.getElem_cons_succ]
      simpa [List.get_eq_getElem] using ih hxs hmem
    · have hax' : a = x := by
        rcases List.mem_cons.1 hx with h | h
        · exact h.symm
        · exact absurd h hmem
      have hidx : ordIndex (a :: xs) x = 0 := by
        simp [ordIndex, hmem, hax']
      rw [List.get_eq_getElem]
      simp only [hidx, List.getElem_cons_zero]
      exact hax'

/-- On a duplicate-free list, `ordIndex` inverts indexing. -/
theorem ordIndex_get {p : List Nat} (hnd : p.Nodup) {i : Nat} (hi : i < p.length) :
    ordIndex p (p.get ⟨i, hi⟩) = i := by
  have hx : p.get ⟨i, hi⟩ ∈ p := List.get_mem p i hi
  have h1 := get_ordIndex hnd hx
  have hinj := List.nodup_iff_injective_get.1 hnd
  have hfe : (⟨ordIndex p (p.get ⟨i, hi⟩), ordIndex_lt_length hx⟩ : Fin p.length) =
      ⟨i, hi⟩ := hinj h1
  exact congrArg Fin.val hfe

/-- Core lemma for the reorder response: a list of areas that is sorted by
`order`, whose multiset of orders is `{0, …, n-1}`, and whose every element
carries `order = ordIndex p id` with `id ∈ p`, lists the ids of `p` in
exactly the sequence of `p`. -/
theorem sorted_update_ids (p : List Nat) (l : List MarketArea)
    (hnd : p.Nodup)
    (hsort : l.Pairwise ordLe)
    (hperm : (l.map (fun a => a.order)).Perm
      ((List.range p.length).map (fun n : Nat => (n : Int))))
    (hmem : ∀ a ∈ l, a.id ∈ p ∧ a.order = (ordIndex p a.id : Int)) :
    l.map (fun a => a.id) = p := by
  have hsortl : (l.map (fun a => a.order)).Sorted (· ≤ ·) := by
    simp only [List.Sorted, List.pairwise_map]
    exact hsort
  have hsortr : ((List.range p.length).map (fun n : Nat => (n : Int))).Sorted (· ≤ ·) := by
    simp only [List.Sorted, List.pairwise_map]
    apply (List.pairwise_lt_range p.length).imp
    intro a b h
    exact_mod_cast Nat.le_of_lt h
  have heq : l.map (fun a => a.order) =
      (List.range p.length).map (fun n : Nat => (n : Int)) :=
    List.eq_of_perm_of_sorted hperm hsortl hsortr
  have hlen : l.length = p.length := by
    have := congrArg List.length heq
    simpa using this
  apply List.ext_get (by simpa using hlen)
  intro i h1 h2
  have hil : i < l.length := by simpa using h1
  have hb1 : i < (l.map (fun a => a.order)).length := by simpa using hil
  have hord : (l.get ⟨i, hil⟩).order = (i : Int) := by
    have e3 := List.get_of_eq heq ⟨i, hb1⟩
    rw [List.get_eq_getElem, List.get_eq_getElem] at e3
    simpa [List.getElem_map, List.getElem_range] using e3
  rcases hmem (l.get ⟨i, hil⟩) (List.get_mem l i hil) with ⟨hidp, hordix⟩
  have hix : ordIndex p (l.get ⟨i, hil⟩).id = i := by
    have hcast : ((ordIndex p (l.get ⟨i, hil⟩).id : Nat) : Int) = (i : Int) := by
      rw [← hordix]
      exact hord
    exact_mod_cast hcast
  have hget : p.get ⟨i, h2⟩ = (l.get ⟨i, hil⟩).id := by
    have hgi := get_ordIndex hnd hidp
    have hfin : (⟨ordIndex p (l.get ⟨i, hil⟩).id, ordIndex_lt_length hidp⟩ :
        Fin p.length) = ⟨i, h2⟩ := Fin.ext hix
    rw [hfin] at hgi
    exact hgi
  have e4 : (l.map (fun a => a.id)).get ⟨i, h1⟩ = (l.get ⟨i, hil⟩).id := by
    rw [List.get_eq_getElem, List.get_eq_getElem]
    simp [List.getElem_map]
  rw [e4, hget]

/-- C1 as amended (nonempty permutations): for every nonempty permutation
`p` of the complete id set of a project's market areas, `reorder` succeeds,
assigns each area's `order` its zero-based index in `p`, and both the
response and a subsequent list fetch return the areas in exactly the
sequence `p`. -/
theorem reorder_full_permutation (db : List MarketArea) (pid : Nat) (p : List Nat)
    (hids : (db.map (fun a => a.id)).Nodup)
    (hperm : p.Perm ((projectAreas db pid).map (fun a => a.id)))
    (hne : p ≠ []) :
    reorder db pid p = .ok (reorderUpdate db pid p,
      ((reorderUpdate db pid p).filter (fun a => a.project == pid)).insertionSort ordLe) ∧
    ((((reorderUpdate db pid p).filter (fun a => a.project == pid)).insertionSort
        ordLe).map (fun a => a.id)) = p ∧
    (listFetch (reorderUpdate db pid p) pid).map (fun a => a.id) = p ∧
    (∀ a ∈ reorderUpdate db pid p, a.project = pid →
      a.order = (ordIndex p a.id : Int)) ∧
    (∀ i, ∀ h : i < p.length, ∃ a ∈ reorderUpdate db pid p,
      a.id = p.get ⟨i, h⟩ ∧ a.order = (i : Int)) := by
  have hPAids : ((projectAreas db pid).map (fun a => a.id)).Nodup :=
    hids.sublist ((List.filter_sublist db).map _)
  have hpnd : p.Nodup := hperm.nodup_iff.2 hPAids
  have hproj_mem : ∀ a ∈ db, a.project = pid → a.id ∈ p := by
    intro a ha hp2
    apply hperm.mem_iff.2
    exact List.mem_map_of_mem _ (List.mem_filter.2 ⟨ha, by simp [hp2]⟩)
  have hfetched : db.filter (fun a => a.project == pid && p.contains a.id) =
      projectAreas db pid := by
    apply List.filter_congr
    intro a ha
    by_cases hp2 : a.project = pid
    · simp [hp2, hproj_mem a ha hp2]
    · simp [hp2]
  have hPAlen : (projectAreas db pid).length = p.length := by
    have h1 := hperm.length_eq
    simpa using h1.symm
  have h0 : p.isEmpty = false := List.isEmpty_eq_false.mpr hne
  have hfetched' : db.filter (fun a => a.project == pid && decide (a.id ∈ p)) =
      projectAreas db pid := by
    have hsame : (fun a : MarketArea => a.project == pid && decide (a.id ∈ p)) =
        (fun a : MarketArea => a.project == pid && p.contains a.id) := by
      funext a
      simp
    rw [hsame]
    exact hfetched
  have hreq : reorder db pid p = .ok (reorderUpdate db pid p,
      ((reorderUpdate db pid p).filter (fun a => a.project == pid)).insertionSort
        ordLe) := by
    simp [reorder, h0, hfetched', hPAlen]
  have hfilter_upd : (reorderUpdate db pid p).filter (fun a => a.project == pid) =
      (projectAreas db pid).map
        (fun a => { a with order := (ordIndex p a.id : Int) }) := by
    rw [reorderUpdate, List.filter_map]
    have hpred : ((fun a : MarketArea => a.project == pid) ∘ (fun a =>
        if a.project == pid && p.contains a.id then
          { a with order := (ordIndex p a.id : Int) } else a)) =
        (fun a : MarketArea => a.project == pid) := by
      funext a
      by_cases hcond : (a.project == pid && p.contains a.id) = true
      · simp only [Function.comp, if_pos hcond]
      · simp only [Function.comp, if_neg hcond]
    rw [hpred]
    apply List.map_congr_left
    intro a ha
    have hamem := (List.mem_filter.1 ha).1
    have hapid : (a.project == pid) = true := (List.mem_filter.1 ha).2
    have haid : a.id ∈ p := hproj_mem a hamem (by simpa using hapid)
    simp [hapid, haid]
  have hrange : p.map (fun x : Nat => ((ordIndex p x : Nat) : Int)) =
      (List.range p.length).map (fun n : Nat => (n : Int)) := by
    apply List.ext_get (by simp)
    intro i hi1 hi2
    rw [List.get_eq_getElem, List.get_eq_getElem]
    simp only [List.getElem_map, List.getElem_range]
    have hilt : i < p.length := by simpa using hi1
    have hxi : ordIndex p (p.get ⟨i, hilt⟩) = i := ordIndex_get hpnd hilt
    rw [List.get_eq_getElem] at hxi
    exact_mod_cast congrArg (fun n : Nat => (n : Int)) hxi
  have hUperm : (((projectAreas db pid).map
      (fun a => { a with order := (ordIndex p a.id : Int) })).map
        (fun a => a.order)).Perm
      ((List.range p.length).map (fun n : Nat => (n : Int))) := by
    rw [List.map_map]
    have hcmp : ((fun a : MarketArea => a.order) ∘
        (fun a => { a with order := (ordIndex p a.id : Int) })) =
        fun a : MarketArea => ((ordIndex p a.id : Nat) : Int) := rfl
    rw [hcmp]
    have h2 : (projectAreas db pid).map (fun a => ((ordIndex p a.id : Nat) : Int)) =
        ((projectAreas db pid).map (fun a => a.id)).map
          (fun x : Nat => ((ordIndex p x : Nat) : Int)) := by
      rw [List.map_map]
      rfl
    rw [h2, ← hrange]
    exact hperm.symm.map _
  have hUmem : ∀ a ∈ (projectAreas db pid).map
      (fun a => { a with order := (ordIndex p a.id : Int) }),
      a.id ∈ p ∧ a.order = (ordIndex p a.id : Int) := by
    intro a ha
    rcases List.mem_map.1 ha with ⟨b, hb, rfl⟩
    refine ⟨?_, rfl⟩
    have hbmem := (List.mem_filter.1 hb).1
    have hbpid : (b.project == pid) = true := (List.mem_filter.1 hb).2
    exact hproj_mem b hbmem (by simpa using hbpid)
  have hresp : ((((reorderUpdate db pid p).filter
      (fun a => a.project == pid)).insertionSort ordLe).map (fun a => a.id)) = p := by
    rw [hfilter_upd]
    apply sorted_update_ids p _ hpnd
    · exact List.sorted_insertionSort ordLe _
    · exact ((List.perm_insertionSort ordLe _).map _).trans hUperm
    · intro a ha
      exact hUmem a ((List.mem_insertionSort ordLe).1 ha)
  have hlistf : (listFetch (reorderUpdate db pid p) pid).map (fun a => a.id) = p := by
    rw [listFetch, hfilter_upd]
    apply sorted_update_ids p _ hpnd
    · have hs := List.sorted_insertionSort listLe
        ((projectAreas db pid).map (fun a => { a with order := (ordIndex p a.id : Int) }))
      exact hs.imp (fun hab => by
        rcases hab with h | ⟨h, _⟩
        · exact le_of_lt h
        · exact le_of_eq h)
    · exact ((List.perm_insertionSort listLe _).map _).trans hUperm
    · intro a ha
      exact hUmem a ((List.mem_insertionSort listLe).1 ha)
  have hupd : ∀ a ∈ reorderUpdate db pid p, a.project = pid →
      a.order = (ordIndex p a.id : Int) := by
    intro a ha hapid
    rw [reorderUpdate] at ha
    rcases List.mem_map.1 ha with ⟨b, hb, rfl⟩
    by_cases hcond : (b.project == pid && p.contains b.id) = true
    · simp only [if_pos hcond]
    · rw [if_neg hcond] at hapid ⊢
      have hbid : b.id ∈ p := hproj_mem b hb hapid
      exact absurd (by simp [hapid, hbid]) hcond
  have hexi : ∀ i, ∀ h : i < p.length, ∃ a ∈ reorderUpdate db pid p,
      a.id = p.get ⟨i, h⟩ ∧ a.order = (i : Int) := by
    intro i h
    have hpi : p.get ⟨i, h⟩ ∈ p := List.get_mem p i h
    have hmemmap : p.get ⟨i, h⟩ ∈ (projectAreas db pid).map (fun a => a.id) :=
      hperm.mem_iff.1 hpi
    rcases List.mem_map.1 hmemmap with ⟨b, hb, hbid⟩
    refine ⟨{ b with order := (ordIndex p b.id : Int) }, ?_, by simpa using hbid, ?_⟩
    · rw [reorderUpdate]
      have hbdb : b ∈ db := (List.mem_filter.1 hb).1
      have hbpid : (b.project == pid) = true := (List.mem_filter.1 hb).2
      have hbidp : b.id ∈ p := by rw [hbid]; exact hpi
      have hval : (fun a : MarketArea =>
          if a.project == pid && p.contains a.id then
            { a with order := (ordIndex p a.id : Int) } else a) b =
          { b with order := (ordIndex p b.id : Int) } := by
        simp [hbpid, hbidp]
      rw [← hval]
      exact List.mem_map_of_mem _ hbdb
    · have hxi : ordIndex p (p.get ⟨i, h⟩) = i := ordIndex_get hpnd h
      show ((ordIndex p b.id : Nat) : Int) = (i : Int)
      rw [hbid, hxi]
  exact ⟨hreq, hresp, hlistf, hupd, hexi⟩

/-- Helper for C2: the length of the reorder fetch is bounded by the number
of distinct ids of `p` that actually are ids of the project's areas. -/
theorem fetch_map_nodup (db : List MarketArea) (pid : Nat) (p : List Nat)
    (hids : (db.map (fun a => a.id)).Nodup) :
    ((db.filter (fun a => a.project == pid && p.contains a.id)).map
      (fun a => a.id)).Nodup :=
  hids.sublist ((List.filter_sublist db).map _)

/-- C2 as amended: `reorder` with an id not belonging to the project (which
covers every strict superset of the true id set) or with a duplicate id
fails with a `ValidationError` and leaves every stored row — hence every
`order` — unchanged; but a nonempty duplicate-free strict subset of the
project's ids is accepted: the listed areas get their index in the list as
`order` and the unlisted rows survive unchanged, a partial update the
original claim rules out. -/
theorem reorder_invalid_or_subset (db : List MarketArea) (pid : Nat) (p : List Nat)
    (hids : (db.map (fun a => a.id)).Nodup) :
    ((∃ x ∈ p, x ∉ (projectAreas db pid).map (fun a => a.id)) →
      (∃ e, reorder db pid p = .error e) ∧ reorderDb db pid p = db) ∧
    (¬p.Nodup →
      (∃ e, reorder db pid p = .error e) ∧ reorderDb db pid p = db) ∧
    (p ≠ [] → p.Nodup → (∀ x ∈ p, x ∈ (projectAreas db pid).map (fun a => a.id)) →
      reorder db pid p = .ok (reorderUpdate db pid p,
        ((reorderUpdate db pid p).filter (fun a => a.project == pid)).insertionSort
          ordLe) ∧
      (∀ a ∈ reorderUpdate db pid p, a.project = pid → a.id ∈ p →
        a.order = (ordIndex p a.id : Int)) ∧
      (∀ a ∈ db, (a.project ≠ pid ∨ a.id ∉ p) → a ∈ reorderUpdate db pid p)) := by
  have hfmem : ∀ a ∈ db.filter (fun a => a.project == pid && p.contains a.id),
      a.id ∈ p ∧ a.id ∈ (projectAreas db pid).map (fun b => b.id) := by
    intro a ha
    rcases List.mem_filter.1 ha with ⟨hadb, hcond⟩
    simp only [Bool.and_eq_true] at hcond
    refine ⟨by simpa using hcond.2, ?_⟩
    exact List.mem_map_of_mem _ (List.mem_filter.2 ⟨hadb, hcond.1⟩)
  have herr : ∀ q : List Nat,
      (db.filter (fun a => a.project == pid && q.contains a.id)).length ≠ q.length →
      (∃ e, reorder db pid q = .error e) ∧ reorderDb db pid q = db := by
    intro q hneq
    by_cases hq : q.isEmpty
    · exact ⟨⟨"Order list is required", by simp [reorder, hq]⟩,
        by simp [reorderDb, reorder, hq]⟩
    · have hq' : q.isEmpty = false := Bool.eq_false_iff.2 hq
      have hne2 : (db.filter (fun a => a.project == pid && decide (a.id ∈ q))).length ≠
          q.length := by
        have hsame : (fun a : MarketArea => a.project == pid && decide (a.id ∈ q)) =
            (fun a : MarketArea => a.project == pid && q.contains a.id) := by
          funext a
          simp
        rw [hsame]
        exact hneq
      refine ⟨⟨"Invalid market area IDs or some IDs do not belong to this project", ?_⟩, ?_⟩
      · simp [reorder, hq', hne2]
      · simp [reorderDb, reorder, hq', hne2]
  refine ⟨?_, ?_, ?_⟩
  · rintro ⟨x, hxp, hxpa⟩
    apply herr
    intro hlen
    have hnd := fetch_map_nodup db pid p hids
    have hsub : ((db.filter (fun a => a.project == pid && p.contains a.id)).map
        (fun a => a.id)).toFinset ⊆ p.toFinset.erase x := by
      intro y hy
      rcases List.mem_map.1 (List.mem_toFinset.1 hy) with ⟨a, ha, rfl⟩
      rcases hfmem a ha with ⟨hyp, hypa⟩
      refine Finset.mem_erase.2 ⟨?_, List.mem_toFinset.2 hyp⟩
      intro hcontra
      exact hxpa (hcontra ▸ hypa)
    have hcard1 : (db.filter (fun a => a.project == pid && p.contains a.id)).length =
        ((db.filter (fun a => a.project == pid && p.contains a.id)).map
          (fun a => a.id)).toFinset.card := by
      rw [List.toFinset_card_of_nodup hnd, List.length_map]
    have hcard2 : ((db.filter (fun a => a.project == pid && p.contains a.id)).map
        (fun a => a.id)).toFinset.card < p.toFinset.card :=
      lt_of_le_of_lt (Finset.card_le_card hsub)
        (Finset.card_erase_lt_of_mem (List.mem_toFinset.2 hxp))
    have hcard3 : p.toFinset.card ≤ p.length := List.toFinset_card_le p
    omega
  · intro hdup
    apply herr
    intro hlen
    have hnd := fetch_map_nodup db pid p hids
    have hsub : ((db.filter (fun a => a.project == pid && p.contains a.id)).map
        (fun a => a.id)).toFinset ⊆ p.toFinset := by
      intro y hy
      rcases List.mem_map.1 (List.mem_toFinset.1 hy) with ⟨a, ha, rfl⟩
      exact List.mem_toFinset.2 (hfmem a ha).1
    have hcard1 : (db.filter (fun a => a.project == pid && p.contains a.id)).length =
        ((db.filter (fun a => a.project == pid && p.contains a.id)).map
          (fun a => a.id)).toFinset.card := by
      rw [List.toFinset_card_of_nodup hnd, List.length_map]
    have hdedup : p.dedup.length < p.length := by
      rcases Nat.lt_or_ge p.dedup.length p.length with h1 | h1
      · exact h1
      · exfalso
        have hs : p.dedup.Sublist p := List.dedup_sublist p
        have hlen2 : p.dedup.length = p.length := le_antisymm hs.length_le h1
        have heq : p.dedup = p := hs.eq_of_length hlen2
        exact hdup (heq ▸ List.nodup_dedup p)
    have hcard2 : p.toFinset.card = p.dedup.length := List.card_toFinset p
    have hcard4 := Finset.card_le_card hsub
    omega
  · intro hne hpnd hsubset
    have hpermids : (((db.filter (fun a => a.project == pid && p.contains a.id)).map
        (fun a => a.id))).Perm p := by
      rw [List.perm_ext_iff_of_nodup (fetch_map_nodup db pid p hids) hpnd]
      intro y
      constructor
      · intro hy
        rcases List.mem_map.1 hy with ⟨a, ha, rfl⟩
        exact (hfmem a ha).1
      · intro hy
        rcases List.mem_map.1 (hsubset y hy) with ⟨a, ha, rfl⟩
        rcases List.mem_filter.1 ha with ⟨hadb, hapid⟩
        refine List.mem_map_of_mem _ (List.mem_filter.2 ⟨hadb, ?_⟩)
        simp only [Bool.and_eq_true]
        exact ⟨hapid, by simpa using hy⟩
    have hlen : (db.filter (fun a => a.project == pid && p.contains a.id)).length =
        p.length := by
      have := hpermids.length_eq
      simpa using this
    have h0 : p.isEmpty = false := List.isEmpty_eq_false.mpr hne
    have hlen' : (db.filter (fun a => a.project == pid && decide (a.id ∈ p))).length =
        p.length := by
      have hsame : (fun a : MarketArea => a.project == pid && decide (a.id ∈ p)) =
          (fun a : MarketArea => a.project == pid && p.contains a.id) := by
        funext a
        simp
      rw [hsame]
      exact hlen
    refine ⟨by simp [reorder, h0, hlen'], ?_, ?_⟩
    · intro a ha hapid haid
      rw [reorderUpdate] at ha
      rcases List.mem_map.1 ha with ⟨b, hb, rfl⟩
      by_cases hcond : (b.project == pid && p.contains b.id) = true
      · simp only [if_pos hcond]
      · rw [if_neg hcond] at hapid haid ⊢
        exact absurd (by simp [hapid, haid]) hcond
    · intro a ha hnot
      rw [reorderUpdate]
      have hcond : (a.project == pid && p.contains a.id) = false := by
        rcases hnot with h | h
        · simp [h]
        · simp [h]
      have hval : (fun b : MarketArea =>
          if b.project == pid && p.contains b.id then
            { b with order := (ordIndex p b.id : Int) } else b) a = a := by
        simp only [ite_eq_right_iff, Bool.and_eq_true, beq_iff_eq, and_imp]
        intro h1 h2
        rcases hnot with h | h
        · exact absurd h1 h
        · exact absurd (by simpa using h2) h
      rw [← hval]
      exact List.mem_map_of_mem _ ha

/-- C1 counterexample at the boundary: for a project with no market areas
the only valid permutation of its (empty) id set is `[]`, yet `reorder`
answers the "Order list is required" error instead of the (empty) ordered
listing. -/
theorem reorder_empty_permutation_rejected :
    ([] : List Nat).Perm ((projectAreas ([] : List MarketArea) 1).map
      (fun a => a.id)) ∧
    reorder ([] : List MarketArea) 1 [] = .error "Order list is required" :=
  ⟨List.Perm.refl _, rfl⟩

/-- Witness for the amended C1: the spec's own end-to-end example — three
areas A, B, C with orders 0, 1, 2 (ids 1, 2, 3), reordered by `[3, 1, 2]`
(C, A, B). -/
theorem reorder_full_permutation_witness :
    reorder [⟨1, 1, 0, 10⟩, ⟨2, 1, 1, 20⟩, ⟨3, 1, 2, 30⟩] 1 [3, 1, 2] =
      .ok (reorderUpdate [⟨1, 1, 0, 10⟩, ⟨2, 1, 1, 20⟩, ⟨3, 1, 2, 30⟩] 1 [3, 1, 2],
        ((reorderUpdate [⟨1, 1, 0, 10⟩, ⟨2, 1, 1, 20⟩, ⟨3, 1, 2, 30⟩] 1
          [3, 1, 2]).filter (fun a => a.project == 1)).insertionSort ordLe) ∧
    ((((reorderUpdate [⟨1, 1, 0, 10⟩, ⟨2, 1, 1, 20⟩, ⟨3, 1, 2, 30⟩] 1
        [3, 1, 2]).filter (fun a => a.project == 1)).insertionSort ordLe).map
      (fun a => a.id)) = [3, 1, 2] ∧
    (listFetch (reorderUpdate [⟨1, 1, 0, 10⟩, ⟨2, 1, 1, 20⟩, ⟨3, 1, 2, 30⟩] 1
      [3, 1, 2]) 1).map (fun a => a.id) = [3, 1, 2] ∧
    (∀ a ∈ reorderUpdate [⟨1, 1, 0, 10⟩, ⟨2, 1, 1, 20⟩, ⟨3, 1, 2, 30⟩] 1 [3, 1, 2],
      a.project = 1 → a.order = (ordIndex [3, 1, 2] a.id : Int)) ∧
    (∀ i, ∀ h : i < ([3, 1, 2] : List Nat).length,
      ∃ a ∈ reorderUpdate [⟨1, 1, 0, 10⟩, ⟨2, 1, 1, 20⟩, ⟨3, 1, 2, 30⟩] 1 [3, 1, 2],
        a.id = ([3, 1, 2] : List Nat).get ⟨i, h⟩ ∧ a.order = (i : Int)) :=
  reorder_full_permutation [⟨1, 1, 0, 10⟩, ⟨2, 1, 1, 20⟩, ⟨3, 1, 2, 30⟩] 1 [3, 1, 2]
    (by decide) (by decide) (by decide)

/-- C2 counterexample: with two areas (ids 1 and 2, orders 0 and 1) the
strict subset `[2]` of the project's id set is accepted rather than
rejected: the call succeeds and reassigns only area 2's order (to 0),
leaving area 1 untouched — a partial update. -/
theorem reorder_strict_subset_accepted :
    reorder [⟨1, 1, 0, 10⟩, ⟨2, 1, 1, 20⟩] 1 [2] =
      .ok ([⟨1, 1, 0, 10⟩, ⟨2, 1, 0, 20⟩],
           [⟨1, 1, 0, 10⟩, ⟨2, 1, 0, 20⟩]) := rfl

/-- Witness for the amended C2: a foreign id (5) makes the call fail and
leaves the store unchanged, and the duplicate list `[1, 1]` does too. -/
theorem reorder_invalid_or_subset_witness :
    ((∃ e, reorder [⟨1, 1, 0, 10⟩] 1 [1, 5] = .error e) ∧
      reorderDb [⟨1, 1, 0, 10⟩] 1 [1, 5] = [⟨1, 1, 0, 10⟩]) ∧
    ((∃ e, reorder [⟨1, 1, 0, 10⟩] 1 [1, 1] = .error e) ∧
      reorderDb [⟨1, 1, 0, 10⟩] 1 [1, 1] = [⟨1, 1, 0, 10⟩]) :=
  ⟨(reorder_invalid_or_subset [⟨1, 1, 0, 10⟩] 1 [1, 5] (by decide)).1
      ⟨5, by decide, by decide⟩,
   (reorder_invalid_or_subset [⟨1, 1, 0, 10⟩] 1 [1, 1] (by decide)).2.1
      (by decide)⟩

end EsriMA
